import Mathlib

/-!
# Verification of the StockAnalysis_Technical indicator and signal pipeline

Shallow embedding of the numeric core of the repository:

* `technical_indicators.py` (top level and `StockSignal/`): moving averages,
  RSI, RCI, Bollinger bands, Ichimoku lines, and the MACD-RSI / MACD-RCI /
  BB-MACD signal classifiers;
* `StockSignal/range_breakout.py`: the range-breakout bucket;
* `StockSignal/extract_signals.py`: the pullback ("push mark") bucket;
* `process_data_for_ticker`: the NaN fill applied to the latest-bar extract.

Machine floats are modelled as `ℚ`; a pandas/numpy NaN cell is `Option.none`.
All definitions are executable, so each theorem can be evaluated on concrete
inputs.
-/

namespace StockAnalysis

/-! ## MACD-RSI signal (`calculate_trading_signals`, `calculate_trading_signals_MACD_RSI`)

One row of a dataframe holding the four columns the rule consults.  The
source initialises the signal column to `''`, then assigns `'Buy'` on the
buy-condition rows and afterwards `'Sell'` on the sell-condition rows, so a
row matched by both conditions would end up `'Sell'`; the embedding applies
the sell assignment last in the same way. -/

structure RsiRow where
  macd : ℚ
  macdSignal : ℚ
  rsiShort : ℚ
  rsiLong : ℚ
deriving DecidableEq, Repr

/-- Buy condition of `calculate_trading_signals_MACD_RSI`:
`MACD > MACD_Signal` and `RSI_short > RSI_long` and `RSI_long <= 40`. -/
def rsiBuyCond (r : RsiRow) : Prop :=
  r.macd > r.macdSignal ∧ r.rsiShort > r.rsiLong ∧ r.rsiLong ≤ 40

/-- Sell condition of `calculate_trading_signals_MACD_RSI`:
`MACD < MACD_Signal` and `RSI_short < RSI_long` and `RSI_long >= 60`. -/
def rsiSellCond (r : RsiRow) : Prop :=
  r.macd < r.macdSignal ∧ r.rsiShort < r.rsiLong ∧ r.rsiLong ≥ 60

instance (r : RsiRow) : Decidable (rsiBuyCond r) := by
  unfold rsiBuyCond; infer_instance

instance (r : RsiRow) : Decidable (rsiSellCond r) := by
  unfold rsiSellCond; infer_instance

/-- Per-row value of the `MACD-RSI` (resp. `Signal`) column: `''` initially,
overwritten by `'Buy'` on buy rows and then by `'Sell'` on sell rows. -/
def macdRsiSignal (r : RsiRow) : String :=
  if rsiSellCond r then "Sell" else if rsiBuyCond r then "Buy" else ""

/-! ## Bollinger %B (`calculate_bollinger_bands`, `StockSignal/technical_indicators.py`)

`np.where(band_range != 0, (close - lower_band) / band_range, np.nan)`:
when any input is NaN the selected branch is a NaN arithmetic result, and a
zero band width selects the literal NaN. -/

/-- `BB_PercentB` of one row from close, lower band and upper band. -/
def percentB : Option ℚ → Option ℚ → Option ℚ → Option ℚ
  | some c, some l, some u =>
      if u - l = 0 then none else some ((c - l) / (u - l))
  | _, _, _ => none

/-! ## Pullback / "push mark" bucket (`extract_push_mark_signals`,
`StockSignal/extract_signals.py`)

The per-ticker data the function consults: the latest close and the short
and mid moving averages on the latest bar (from `latest_signal.csv`), the
same two averages on the prior bar (last two rows of the per-ticker file),
and the latest volume (present in the data, though the function never reads
it; it is carried here so the claimed volume condition can be stated). -/

structure PushRow where
  close : ℚ
  shortMA : ℚ
  midMA : ℚ
  prevShortMA : ℚ
  prevMidMA : ℚ
  volume : ℚ
deriving DecidableEq, Repr

/-- Admission test of `extract_push_mark_signals`: condition 1 is
`|MA_short - MA_mid| <= 0.02 * Close`, condition 2 is
`current_diff > previous_diff`, condition 3 is
`current_mid_ma > previous_mid_ma`.  There is no further condition. -/
def pushMarkAdmit (x : PushRow) : Bool :=
  decide (|x.shortMA - x.midMA| ≤ x.close * (2 / 100)) &&
  decide (x.shortMA - x.midMA > x.prevShortMA - x.prevMidMA) &&
  decide (x.midMA > x.prevMidMA)

/-- The pullback predicate as the spec words it (claim C5): in addition to
the code's conditions 1 and 2 it asks the mid MA to have risen by at least
the minimum rate 0.3 % and the volume to be at least the minimum threshold
100000. -/
def specPushMarkAdmit (x : PushRow) : Bool :=
  decide (|x.shortMA - x.midMA| ≤ x.close * (2 / 100)) &&
  decide (x.shortMA - x.midMA > x.prevShortMA - x.prevMidMA) &&
  decide (x.midMA ≥ x.prevMidMA * (1 + 3 / 1000)) &&
  decide (x.volume ≥ 100000)

/-! ## Range-breakout bucket (`identify_range_breakouts`,
`StockSignal/range_breakout.py`)

One OHLCV bar; dates are day numbers, so the 3-month filter of the source
(`Date >= latest_date - timedelta(days=90)`) is `latestDate - 90 ≤ date`. -/

structure Bar where
  date : ℤ
  high : ℚ
  low : ℚ
  close : ℚ
  volume : ℚ
deriving DecidableEq, Repr

/-- Maximum of a list of rationals (`Series.max()`), `none` on an empty
list. -/
def listMaxQ : List ℚ → Option ℚ
  | [] => none
  | x :: xs =>
    some (match listMaxQ xs with
      | none => x
      | some m => max x m)

/-- Maximum of a list of dates (`df['Date'].max()`), `none` on empty. -/
def listMaxZ : List ℤ → Option ℤ
  | [] => none
  | x :: xs =>
    some (match listMaxZ xs with
      | none => x
      | some m => max x m)

/-- Arithmetic mean of a list (`Series.mean()`). -/
def meanQ (l : List ℚ) : ℚ := l.sum / l.length

/-- Admission test of `identify_range_breakouts` for one instrument: an
instrument with fewer than 90 rows is skipped (`if len(df) < 90: continue`)
before any condition is evaluated; otherwise condition 1 compares the
latest close against the maximum high of the bars of the trailing 90-day
window that are strictly before the latest date (`False` when there are
none), condition 2 compares the latest volume with 1.5 times the mean
volume of the whole 90-day window (the latest bar included, as
`three_month_data['Volume'].mean()` is), condition 3 is the absolute floor
of 100000, and condition 4 asks the close to beat the midpoint of the
latest bar's own high/low range. -/
def identifyRangeBreakout (bars : List Bar) : Bool :=
  if bars.length < 90 then false
  else match bars.getLast? with
  | none => false
  | some latest =>
    match listMaxZ (bars.map Bar.date) with
    | none => false
    | some latestDate =>
      let window := bars.filter (fun b => decide (latestDate - 90 ≤ b.date))
      let previous := window.filter (fun b => decide (b.date < latestDate))
      let cond1 : Bool :=
        match listMaxQ (previous.map Bar.high) with
        | none => false
        | some m => decide (latest.close ≥ m)
      let cond2 := decide (latest.volume > meanQ (window.map Bar.volume) * (3 / 2))
      let cond3 := decide (latest.volume ≥ 100000)
      let cond4 := decide (latest.close > (latest.high + latest.low) / 2)
      cond1 && cond2 && cond3 && cond4

/-- The breakout predicate as claim C4 words it for the instruments with
enough history: identical to `identifyRangeBreakout` except that the
volume mean of condition 2 is taken over the strictly prior bars of the
window only. -/
def specRangeBreakout (bars : List Bar) : Bool :=
  if bars.length < 90 then false
  else match bars.getLast? with
  | none => false
  | some latest =>
    match listMaxZ (bars.map Bar.date) with
    | none => false
    | some latestDate =>
      let window := bars.filter (fun b => decide (latestDate - 90 ≤ b.date))
      let previous := window.filter (fun b => decide (b.date < latestDate))
      let cond1 : Bool :=
        match listMaxQ (previous.map Bar.high) with
        | none => false
        | some m => decide (latest.close ≥ m)
      let cond2 := decide (latest.volume > meanQ (previous.map Bar.volume) * (3 / 2))
      let cond3 := decide (latest.volume ≥ 100000)
      let cond4 := decide (latest.close > (latest.high + latest.low) / 2)
      cond1 && cond2 && cond3 && cond4

end StockAnalysis

namespace StockAnalysis

/-! ## MACD-RCI signal (`calculate_trading_signals_MACD_RCI`,
`StockSignal/technical_indicators.py`)

The four columns the rule consults on each row. -/

structure RciRow where
  macd : ℚ
  macdSignal : ℚ
  rciShort : ℚ
  rciLong : ℚ
deriving DecidableEq, Repr

instance : Inhabited RciRow := ⟨⟨0, 0, 0, 0⟩⟩

/-- The buy-side scan over the 5-bar window `past_5days`: some adjacent
pair has long RCI `<= -80` followed by `> -80`. -/
def rciCrossUp : List RciRow → Bool
  | a :: b :: rest =>
    (decide (a.rciLong ≤ -80) && decide (b.rciLong > -80)) ||
      rciCrossUp (b :: rest)
  | _ => false

/-- The sell-side scan: some adjacent pair has long RCI `>= 80` followed by
`< 80`. -/
def rciCrossDown : List RciRow → Bool
  | a :: b :: rest =>
    (decide (a.rciLong ≥ 80) && decide (b.rciLong < 80)) ||
      rciCrossDown (b :: rest)
  | _ => false

/-- `MACD-RCI` value of row `i`: empty for a series shorter than 5 bars and
for rows of index below 4; otherwise `'Buy'` on an upward −80 cross within
the trailing 5 bars combined with `MACD > MACD_Signal` and short RCI
`>= 50`, else `'Sell'` on the mirrored conditions, else empty. -/
def macdRciSignalAt (rows : List RciRow) (i : ℕ) : String :=
  if rows.length < 5 ∨ i < 4 ∨ rows.length ≤ i then ""
  else if rciCrossUp ((rows.drop (i - 4)).take 5) = true ∧
      (rows.getD i default).macd > (rows.getD i default).macdSignal ∧
      (rows.getD i default).rciShort ≥ 50 then "Buy"
  else if rciCrossDown ((rows.drop (i - 4)).take 5) = true ∧
      (rows.getD i default).macd < (rows.getD i default).macdSignal ∧
      (rows.getD i default).rciShort ≤ -50 then "Sell"
  else ""

/-! ## BB-MACD signal (`calculate_trading_signals_BB_MACD`,
`StockSignal/technical_indicators.py`)

Cells are `Option ℚ` because the source checks `pd.isna` explicitly on the
six values it consults. -/

structure BbRow where
  close : Option ℚ
  bbMiddle : Option ℚ
  macd : Option ℚ
  macdSignal : Option ℚ
deriving DecidableEq, Repr

instance : Inhabited BbRow := ⟨⟨none, none, none, none⟩⟩

/-- `BB-MACD` value of row `i`: empty for a series shorter than 3 bars and
for rows 0 and 1; empty when any of the six checked values (current close,
middle band, MACD, MACD signal; MACD and MACD signal two bars prior) is
NaN; otherwise `'Buy'`/`'Sell'` on the crossover conditions. -/
def bbMacdSignalAt (rows : List BbRow) (i : ℕ) : String :=
  if rows.length < 3 ∨ i < 2 ∨ rows.length ≤ i then ""
  else if (rows.getD i default).close = none ∨
      (rows.getD i default).bbMiddle = none ∨
      (rows.getD i default).macd = none ∨
      (rows.getD i default).macdSignal = none ∨
      (rows.getD (i - 2) default).macd = none ∨
      (rows.getD (i - 2) default).macdSignal = none then ""
  else if (rows.getD i default).close.getD 0 >
        (rows.getD i default).bbMiddle.getD 0 ∧
      (rows.getD i default).macd.getD 0 >
        (rows.getD i default).macdSignal.getD 0 ∧
      (rows.getD (i - 2) default).macd.getD 0 <
        (rows.getD (i - 2) default).macdSignal.getD 0 then "Buy"
  else if (rows.getD i default).close.getD 0 <
        (rows.getD i default).bbMiddle.getD 0 ∧
      (rows.getD i default).macd.getD 0 <
        (rows.getD i default).macdSignal.getD 0 ∧
      (rows.getD (i - 2) default).macd.getD 0 >
        (rows.getD (i - 2) default).macdSignal.getD 0 then "Sell"
  else ""

/-! ## Ichimoku lines (`calculate_ichimoku`, `technical_indicators.py`)

The function works on the `High`/`Low`/`Close` numpy arrays; a bar of those
three values: -/

structure Hlc where
  high : ℚ
  low : ℚ
  close : ℚ
deriving DecidableEq, Repr

instance : Inhabited Hlc := ⟨⟨0, 0, 0⟩⟩

/-- `np.max` of a window (0 on an empty window, which the source never
takes). -/
def maxList : List ℚ → ℚ
  | [] => 0
  | x :: xs => xs.foldl max x

/-- `np.min` of a window (0 on an empty window). -/
def minList : List ℚ → ℚ
  | [] => 0
  | x :: xs => xs.foldl min x

/-- The numpy slice `values[i - p + 1 : i + 1]`. -/
def winSlice (values : List ℚ) (p i : ℕ) : List ℚ :=
  (values.take (i + 1)).drop (i + 1 - p)

/-- Tenkan line at row `i`: `(max High + min Low) / 2` over the trailing
`p` bars; the array stays NaN outside `p - 1 ≤ i < n`. -/
def tenkanAt (bars : List Hlc) (p i : ℕ) : Option ℚ :=
  if p ≤ i + 1 ∧ i < bars.length then
    some ((maxList (winSlice (bars.map Hlc.high) p i) +
           minList (winSlice (bars.map Hlc.low) p i)) / 2)
  else none

/-- Kijun line: same formula over its own window. -/
def kijunAt (bars : List Hlc) (p i : ℕ) : Option ℚ :=
  tenkanAt bars p i

/-- Senkou Span A stored at index `j`: the loop writes
`(tenkan[i] + kijun[i]) / 2` to `j = i + displacement` for
`tenkan_period - 1 ≤ i` whenever `i + displacement < n`; every other entry
of the array stays NaN, and a NaN `kijun[i]` propagates. -/
def senkouAAt (bars : List Hlc) (tp kp disp j : ℕ) : Option ℚ :=
  if disp ≤ j ∧ tp ≤ j - disp + 1 ∧ j < bars.length then
    match tenkanAt bars tp (j - disp), kijunAt bars kp (j - disp) with
    | some a, some b => some ((a + b) / 2)
    | _, _ => none
  else none

/-- Senkou Span B stored at index `j`: `(max High + min Low) / 2` over the
`sp`-bar window ending at `i = j - displacement`, written at
`j = i + displacement` when in range. -/
def senkouBAt (bars : List Hlc) (sp disp j : ℕ) : Option ℚ :=
  if disp ≤ j ∧ sp ≤ j - disp + 1 ∧ j < bars.length then
    some ((maxList (winSlice (bars.map Hlc.high) sp (j - disp)) +
           minList (winSlice (bars.map Hlc.low) sp (j - disp))) / 2)
  else none

/-- Chikou span stored at index `j`: `close[j + displacement]` when that
bar exists, NaN otherwise. -/
def chikouAt (bars : List Hlc) (disp j : ℕ) : Option ℚ :=
  if j + disp < bars.length then some ((bars.getD (j + disp) default).close)
  else none

/-! ## RCI (`calculate_rci` / `compute_rci`, `technical_indicators.py`)

`price_ranks = period - np.argsort(np.argsort(-price_window))`: the inner
`argsort` lists the indices in descending price order, the outer one
inverts that permutation, so entry `i` is the 0-based position of bar `i`
in the descending sort.  numpy's quicksort leaves the relative order of
tied prices unspecified; the embedding fixes the tie order by original
index, one of the orders the sort may produce (every choice yields a
permutation, which is all the bound depends on). -/

/-- Bar `j` comes strictly before bar `i` in the descending price sort:
its price is higher, or equal with a smaller index. -/
def rlt (l : List ℚ) (j i : Fin l.length) : Prop :=
  l.get i < l.get j ∨ (l.get j = l.get i ∧ j < i)

instance (l : List ℚ) (j i : Fin l.length) : Decidable (rlt l j i) := by
  unfold rlt; infer_instance

/-- `np.argsort(np.argsort(-w))[i]`: the number of bars placed before bar
`i` in the descending price sort. -/
def rankOf (l : List ℚ) (i : Fin l.length) : ℕ :=
  (Finset.univ.filter fun j => rlt l j i).card

/-- `compute_rci` on one window: time ranks `1..p` against price ranks
`p - rank`, then `RCI = (1 - 6·d² / (p·(p²−1))) · 100`. -/
def computeRci (l : List ℚ) : ℚ :=
  (1 - 6 * (∑ i : Fin l.length,
      ((((i : ℕ) : ℚ) + 1) - ((l.length : ℚ) - (rankOf l i : ℚ))) ^ 2) /
    ((l.length : ℚ) * ((l.length : ℚ) ^ 2 - 1))) * 100

/-- `RCI{p}` column at row `i`: NaN before `p - 1` and past the end of the
series, otherwise `compute_rci` of the trailing `p`-bar window. -/
def rciAt (closes : List ℚ) (p i : ℕ) : Option ℚ :=
  if p ≤ i + 1 ∧ i < closes.length then
    some (computeRci (winSlice closes p i))
  else none

/-! ## Spec-modelled TA-Lib indicators

The `MA{w}`, `RSI{p}`, `MACD` and `MACD_Signal` columns are produced by the
TA-Lib library, whose code is not part of the repository; the definitions
below follow the spec's formulas. -/

/-- Modelled from the spec: `talib.SMA` (absent from the repository) —
`MA[w][i] = mean(close[i-w+1 .. i])`, undefined (NaN) when `i < w-1`. -/
def smaAt (closes : List ℚ) (w i : ℕ) : Option ℚ :=
  if w ≤ i + 1 ∧ i < closes.length then some (meanQ (winSlice closes w i))
  else none

/-- Modelled from the spec: `talib.RSI` (absent from the repository) —
`RSI = 100 − 100/(1+RS)` with `RS` the ratio of the average gain to the
average loss over the trailing window of `p` one-day changes; the library
leaves the first `p` rows NaN, and an all-gain window yields 100. -/
def rsiAt (closes : List ℚ) (p i : ℕ) : Option ℚ :=
  if 1 ≤ p ∧ p ≤ i ∧ i < closes.length then
    some (let diffs := (closes.drop 1).zipWith (fun a b => a - b) closes
      let window := (diffs.take i).drop (i - p)
      let ag := meanQ (window.map fun d => max d 0)
      let al := meanQ (window.map fun d => -(min d 0))
      if al = 0 then 100 else 100 - 100 / (1 + ag / al))
  else none

/-- Modelled from the spec: the exponential moving average underlying
`talib.MACD` (absent from the repository) — `α = 2/(p+1)`, seeded at row
`p - 1` with the simple average of the first `p` values, NaN before. -/
def emaAt (xs : List ℚ) (p : ℕ) : ℕ → Option ℚ
  | 0 => if p = 1 ∧ 0 < xs.length then some (xs.getD 0 0) else none
  | i + 1 =>
    if xs.length ≤ i + 1 then none
    else if i + 2 < p then none
    else if i + 2 = p then some (meanQ (xs.take p))
    else
      match emaAt xs p i with
      | some prev =>
          some (2 / ((p : ℚ) + 1) * xs.getD (i + 1) 0 +
            (1 - 2 / ((p : ℚ) + 1)) * prev)
      | none => none

/-- Modelled from the spec: the `MACD` column —
`EMA_fast(close) − EMA_slow(close)`, NaN while either EMA is. -/
def macdAt (closes : List ℚ) (fast slow i : ℕ) : Option ℚ :=
  match emaAt closes fast i, emaAt closes slow i with
  | some f, some s => some (f - s)
  | _, _ => none

/-- The defined MACD values in row order (the sub-series the signal EMA
runs over). -/
def macdSeries (closes : List ℚ) (fast slow : ℕ) : List ℚ :=
  (List.range closes.length).filterMap fun i => macdAt closes fast slow i

/-- Modelled from the spec: the `MACD_Signal` column —
`EMA_signal(MACD)`, running over the defined MACD values, which start at
row `slow - 1`. -/
def macdSignalAt (closes : List ℚ) (fast slow sp i : ℕ) : Option ℚ :=
  if slow ≤ i + 1 then
    emaAt (macdSeries closes fast slow) sp (i - (slow - 1))
  else none

/-! ## Latest-bar extract fill (`process_data_for_ticker`,
`technical_indicators.py`)

The published single-row extract: for each column whose last-row value is
NaN, `Signal`, `Ichimoku_SanYaku` and `Ichimoku_Cloud_Status` are filled
with `''` and every other column with `0`. -/

/-- One cell of the latest row: a number, a string, or NaN. -/
inductive Cell where
  | num : ℚ → Cell
  | str : String → Cell
  | nan : Cell
deriving DecidableEq, Repr

/-- The columns `fillna('')` is applied to. -/
def stringFillColumns : List String :=
  ["Signal", "Ichimoku_SanYaku", "Ichimoku_Cloud_Status"]

/-- The per-column NaN fill of `process_data_for_ticker`. -/
def fillCell (col : String) : Cell → Cell
  | Cell.nan =>
      if col ∈ stringFillColumns then Cell.str "" else Cell.num 0
  | c => c

/-- The fill applied across the latest row (column name, cell pairs). -/
def fillLatestRow (row : List (String × Cell)) : List (String × Cell) :=
  row.map fun cv => (cv.1, fillCell cv.1 cv.2)

/-- An `Option ℚ` indicator value as a cell of the written row. -/
def toCell : Option ℚ → Cell
  | none => Cell.nan
  | some q => Cell.num q

end StockAnalysis

namespace StockAnalysis

/-! ## Theorems for claims C1, C9, C5 -/

/-- **C1.** For every row holding the MACD, MACD_Signal, short-RSI and
long-RSI columns, the MACD-RSI classification is `'Buy'` exactly when
`MACD > MACD_Signal`, `RSI_short > RSI_long` and `RSI_long ≤ 40`; it is
`'Sell'` exactly when `MACD < MACD_Signal`, `RSI_short < RSI_long` and
`RSI_long ≥ 60` (the asymmetric 40/60 thresholds preserved); and it is the
empty string otherwise. -/
theorem macdRsiSignal_correct (r : RsiRow) :
    (macdRsiSignal r = "Buy" ↔
      r.macd > r.macdSignal ∧ r.rsiShort > r.rsiLong ∧ r.rsiLong ≤ 40) ∧
    (macdRsiSignal r = "Sell" ↔
      r.macd < r.macdSignal ∧ r.rsiShort < r.rsiLong ∧ r.rsiLong ≥ 60) ∧
    (¬ (r.macd > r.macdSignal ∧ r.rsiShort > r.rsiLong ∧ r.rsiLong ≤ 40) →
     ¬ (r.macd < r.macdSignal ∧ r.rsiShort < r.rsiLong ∧ r.rsiLong ≥ 60) →
      macdRsiSignal r = "") := by
  unfold macdRsiSignal
  by_cases hs : rsiSellCond r
  · have hb : ¬ rsiBuyCond r := by
      rintro ⟨hb1, -, -⟩
      exact absurd hs.1 (not_lt.mpr hb1.le)
    refine ⟨?_, ?_, ?_⟩
    · rw [if_pos hs]
      constructor
      · intro h; exact absurd h (by decide)
      · intro h; exact absurd h hb
    · rw [if_pos hs]
      exact ⟨fun _ => hs, fun _ => rfl⟩
    · intro _ h2; exact absurd hs h2
  · by_cases hb : rsiBuyCond r
    · refine ⟨?_, ?_, ?_⟩
      · rw [if_neg hs, if_pos hb]
        exact ⟨fun _ => hb, fun _ => rfl⟩
      · rw [if_neg hs, if_pos hb]
        constructor
        · intro h; exact absurd h (by decide)
        · intro h; exact absurd h hs
      · intro h1 _; exact absurd hb h1
    · refine ⟨?_, ?_, ?_⟩
      · rw [if_neg hs, if_neg hb]
        constructor
        · intro h; exact absurd h (by decide)
        · intro h; exact absurd h hb
      · rw [if_neg hs, if_neg hb]
        constructor
        · intro h; exact absurd h (by decide)
        · intro h; exact absurd h hs
      · intro _ _; rw [if_neg hs, if_neg hb]

/-- Witness for C1: evaluation of the three parts of
`macdRsiSignal_correct` on a concrete buy row. -/
theorem macdRsiSignal_correct_witness :
    macdRsiSignal ⟨1, 0, 50, 30⟩ = "Buy" := by
  exact (macdRsiSignal_correct ⟨1, 0, 50, 30⟩).1.mpr
    (by norm_num)

/-- **C9.** For every row of the Bollinger computation, a zero band width
makes `%B` NaN rather than an infinity, and a nonzero width gives
`%B = (Close - lower) / (upper - lower)`. -/
theorem percentB_correct (c l u : ℚ) :
    (u - l = 0 → percentB (some c) (some l) (some u) = none) ∧
    (u - l ≠ 0 →
      percentB (some c) (some l) (some u) = some ((c - l) / (u - l))) := by
  constructor
  · intro h; simp [percentB, h]
  · intro h; simp [percentB, h]

/-- Witness for C9: both branches of `percentB_correct` evaluated on
concrete bands. -/
theorem percentB_correct_witness :
    percentB (some 5) (some 3) (some 3) = none ∧
    percentB (some 5) (some 3) (some 7) = some (1 / 2) := by
  constructor
  · exact (percentB_correct 5 3 3).1 (by norm_num)
  · have h := (percentB_correct 5 3 7).2 (by norm_num)
    rw [h]; norm_num

/-- **C5 counterexample.** A concrete instrument admitted by
`extract_push_mark_signals` although its mid MA rose by only 0.1 % (below
the claimed 0.3 % minimum rate) and its volume is 0 (below any minimum
threshold): the code checks only strict growth of the mid MA and never
reads the volume, so the claim's extra conditions are not part of the
admission test. -/
theorem pushMark_claim_counterexample :
    pushMarkAdmit ⟨1000, 1000, 1001, 998, 1000, 0⟩ = true ∧
    specPushMarkAdmit ⟨1000, 1000, 1001, 998, 1000, 0⟩ = false := by
  constructor
  · simp only [pushMarkAdmit, Bool.and_eq_true, decide_eq_true_eq]
    norm_num
  · simp only [specPushMarkAdmit, Bool.and_eq_false_iff, decide_eq_false_iff_not]
    norm_num

/-- **C5 (amended).** The push-mark bucket admits an instrument exactly
when `|short MA − mid MA| ≤ 2 %` of the latest close, the short-minus-mid
gap strictly widened versus the prior bar, and the mid MA strictly rose
versus the prior bar (by any positive amount — no 0.3 % minimum rate and no
volume condition). -/
theorem pushMarkAdmit_correct (x : PushRow) :
    pushMarkAdmit x = true ↔
      |x.shortMA - x.midMA| ≤ x.close * (2 / 100) ∧
      x.shortMA - x.midMA > x.prevShortMA - x.prevMidMA ∧
      x.midMA > x.prevMidMA := by
  simp [pushMarkAdmit, and_assoc]

/-- Witness for C5: `pushMarkAdmit_correct` applied at a concrete admitted
row. -/
theorem pushMarkAdmit_correct_witness :
    pushMarkAdmit ⟨1000, 1000, 1001, 998, 1000, 0⟩ = true := by
  exact (pushMarkAdmit_correct ⟨1000, 1000, 1001, 998, 1000, 0⟩).mpr
    (by norm_num)

/-! ### Claim C4: range breakout -/

/-- Specification of `listMaxQ`: it returns `none` exactly on the empty
list and otherwise an element that bounds the whole list. -/
theorem listMaxQ_spec (l : List ℚ) :
    (listMaxQ l = none ↔ l = []) ∧
    ∀ m, listMaxQ l = some m → m ∈ l ∧ ∀ x ∈ l, x ≤ m := by
  induction l with
  | nil => exact ⟨by simp [listMaxQ], fun m h => by simp [listMaxQ] at h⟩
  | cons a t ih =>
    refine ⟨by simp [listMaxQ], ?_⟩
    intro m hm
    unfold listMaxQ at hm
    rcases ht : listMaxQ t with _ | mt
    · rw [ht] at hm
      have hte : t = [] := (ih.1).mp ht
      simp only [Option.some.injEq] at hm
      subst hte
      subst hm
      exact ⟨List.mem_singleton.mpr rfl, by simp⟩
    · rw [ht] at hm
      simp only [Option.some.injEq] at hm
      have hmem := ih.2 mt ht
      subst hm
      constructor
      · rcases le_total a mt with h | h
        · have : max a mt = mt := max_eq_right h
          rw [this]; exact List.mem_cons_of_mem _ hmem.1
        · have : max a mt = a := max_eq_left h
          rw [this]; exact List.mem_cons_self _ _
      · intro x hx
        rcases List.mem_cons.mp hx with hx | hx
        · subst hx; exact le_max_left _ _
        · exact le_trans (hmem.2 x hx) (le_max_right _ _)

/-- `listMaxZ` of `n` copies of `a` in front of a list with maximum
`m ≥ a` is still `m`. -/
theorem listMaxZ_replicate_append (n : ℕ) (a m : ℤ) (l : List ℤ)
    (hl : listMaxZ l = some m) (ham : a ≤ m) :
    listMaxZ (List.replicate n a ++ l) = some m := by
  induction n with
  | zero => simpa using hl
  | succ k ih =>
    rw [List.replicate_succ, List.cons_append]
    unfold listMaxZ
    rw [ih]
    simp [max_eq_right ham]

/-- **C4 counterexample.** A 90-row instrument (so it passes the
`len(df) < 90` skip): 87 bars dated on the latest day (inside the 90-day
window but not strictly prior) with volume 300000, then prior bars with
volumes 100000 and 100000, then the latest bar with volume 200000.  The
claim's condition set holds — the latest volume 200000 exceeds 1.5 × the
prior-bar mean 100000, the close beats every prior high and its own
midpoint, the volume floor is met — yet the code rejects the instrument
because it averages the volume over the window *including* the
non-strictly-prior bars (mean 26500000/90, whose 1.5-fold is about
441667 > 200000, and the comparison fails). -/
theorem rangeBreakout_claim_counterexample :
    specRangeBreakout (List.replicate 87 ⟨3, 1, 1, 1, 300000⟩ ++
      [⟨1, 10, 5, 9, 100000⟩, ⟨2, 10, 5, 9, 100000⟩,
       ⟨3, 12, 8, 12, 200000⟩]) = true ∧
    identifyRangeBreakout (List.replicate 87 ⟨3, 1, 1, 1, 300000⟩ ++
      [⟨1, 10, 5, 9, 100000⟩, ⟨2, 10, 5, 9, 100000⟩,
       ⟨3, 12, 8, 12, 200000⟩]) = false := by
  set bars : List Bar := List.replicate 87 ⟨3, 1, 1, 1, 300000⟩ ++
      [⟨1, 10, 5, 9, 100000⟩, ⟨2, 10, 5, 9, 100000⟩,
       ⟨3, 12, 8, 12, 200000⟩] with hbars
  have hlen : bars.length = 90 := by simp [hbars]
  have hguard : ¬ bars.length < 90 := by omega
  have hlast : bars.getLast? = some ⟨3, 12, 8, 12, 200000⟩ := by
    rw [hbars, List.getLast?_append]
    rfl
  have hdate : listMaxZ (bars.map Bar.date) = some 3 := by
    rw [hbars, List.map_append, List.map_replicate]
    exact listMaxZ_replicate_append 87 3 3 _
      (by norm_num [listMaxZ, max_def]) le_rfl
  have hwin : bars.filter (fun b => decide ((3 : ℤ) - 90 ≤ b.date)) =
      bars := by
    apply List.filter_eq_self.mpr
    intro b hb
    rw [hbars] at hb
    rcases List.mem_append.mp hb with h | h
    · rw [(List.mem_replicate.mp h).2]
      decide
    · simp only [List.mem_cons, List.not_mem_nil, or_false] at h
      rcases h with rfl | rfl | rfl <;> decide
  have hprev : bars.filter (fun b => decide (b.date < (3 : ℤ))) =
      [⟨1, 10, 5, 9, 100000⟩, ⟨2, 10, 5, 9, 100000⟩] := by
    rw [hbars, List.filter_append, List.filter_replicate]
    norm_num [List.filter]
  have hvol : meanQ ((bars.map Bar.volume)) = 26500000 / 90 := by
    rw [hbars, List.map_append, List.map_replicate]
    norm_num [meanQ, List.sum_append, List.sum_replicate, nsmul_eq_mul]
  constructor
  · unfold specRangeBreakout
    rw [if_neg hguard, hlast, hdate]
    dsimp only
    rw [hwin, hprev]
    norm_num [listMaxQ, max_def, meanQ]
  · unfold identifyRangeBreakout
    rw [if_neg hguard, hlast, hdate]
    dsimp only
    rw [hwin, hprev, hvol]
    norm_num [listMaxQ, max_def]

/-- **C4 (amended).** For every instrument with at least 90 rows of
history (shorter instruments are skipped before any condition is
evaluated) the range-breakout bucket admits it exactly when: the trailing
90-day window has bars strictly before the latest date and the latest
close is at least every such bar's high; the latest volume strictly
exceeds 1.5 times the mean volume of the whole trailing window — the
current bar *included*; the latest volume is at least 100000; and the
latest close strictly exceeds the midpoint of the current bar's own
high/low range. -/
theorem identifyRangeBreakout_correct (bars : List Bar) (latest : Bar)
    (latestDate : ℤ)
    (hlen : 90 ≤ bars.length)
    (hlast : bars.getLast? = some latest)
    (hdate : listMaxZ (bars.map Bar.date) = some latestDate) :
    identifyRangeBreakout bars = true ↔
      ((bars.filter fun b => decide (latestDate - 90 ≤ b.date)).filter
          fun b => decide (b.date < latestDate)) ≠ [] ∧
      (∀ b ∈ (bars.filter fun b => decide (latestDate - 90 ≤ b.date)).filter
          fun b => decide (b.date < latestDate), b.high ≤ latest.close) ∧
      latest.volume >
        meanQ (((bars.filter fun b => decide (latestDate - 90 ≤ b.date)).map
          Bar.volume)) * (3 / 2) ∧
      latest.volume ≥ 100000 ∧
      latest.close > (latest.high + latest.low) / 2 := by
  unfold identifyRangeBreakout
  rw [if_neg (by omega : ¬ bars.length < 90), hlast, hdate]
  set window := bars.filter fun b => decide (latestDate - 90 ≤ b.date) with hw
  set previous := window.filter fun b => decide (b.date < latestDate) with hp
  have hcond1 :
      (match listMaxQ (previous.map Bar.high) with
        | none => false
        | some m => decide (latest.close ≥ m)) = true ↔
      previous ≠ [] ∧ ∀ b ∈ previous, b.high ≤ latest.close := by
    rcases hmax : listMaxQ (previous.map Bar.high) with _ | m
    · have : previous.map Bar.high = [] := (listMaxQ_spec _).1.mp hmax
      have hpe : previous = [] := List.map_eq_nil_iff.mp this
      simp [hpe]
    · have hspec := (listMaxQ_spec (previous.map Bar.high)).2 m hmax
      simp only [decide_eq_true_eq]
      constructor
      · intro hge
        constructor
        · intro hpe
          rw [hpe] at hmax
          simp [listMaxQ] at hmax
        · intro b hb
          exact le_trans (hspec.2 _ (List.mem_map_of_mem Bar.high hb)) hge
      · rintro ⟨-, hall⟩
        rcases List.mem_map.mp hspec.1 with ⟨b, hb, hbm⟩
        rw [← hbm]
        exact hall b hb
  constructor
  · intro h
    simp only [Bool.and_eq_true, decide_eq_true_eq] at h
    obtain ⟨⟨⟨h1, h2⟩, h3⟩, h4⟩ := h
    exact ⟨(hcond1.mp h1).1, (hcond1.mp h1).2, h2, h3, h4⟩
  · rintro ⟨hne, hall, h2, h3, h4⟩
    simp only [Bool.and_eq_true, decide_eq_true_eq]
    exact ⟨⟨⟨hcond1.mpr ⟨hne, hall⟩, h2⟩, h3⟩, h4⟩

/-- Witness for C4: `identifyRangeBreakout_correct` applied to a concrete
90-bar instrument (89 prior bars, one breakout bar) that the bucket
admits. -/
theorem identifyRangeBreakout_correct_witness :
    identifyRangeBreakout (List.replicate 89 ⟨1, 10, 5, 9, 100000⟩ ++
      [⟨2, 12, 8, 12, 400000⟩]) = true := by
  set bars : List Bar := List.replicate 89 ⟨1, 10, 5, 9, 100000⟩ ++
      [⟨2, 12, 8, 12, 400000⟩] with hbars
  have hlen : bars.length = 90 := by simp [hbars]
  have hlast : bars.getLast? = some ⟨2, 12, 8, 12, 400000⟩ := by
    rw [hbars, List.getLast?_append]
    rfl
  have hdate : listMaxZ (bars.map Bar.date) = some 2 := by
    rw [hbars, List.map_append, List.map_replicate]
    exact listMaxZ_replicate_append 89 1 2 _ (by norm_num [listMaxZ])
      (by norm_num)
  have hwin : bars.filter (fun b => decide ((2 : ℤ) - 90 ≤ b.date)) =
      bars := by
    apply List.filter_eq_self.mpr
    intro b hb
    rw [hbars] at hb
    rcases List.mem_append.mp hb with h | h
    · rw [(List.mem_replicate.mp h).2]
      decide
    · simp only [List.mem_cons, List.not_mem_nil, or_false] at h
      rcases h with rfl
      decide
  have hprev : bars.filter (fun b => decide (b.date < (2 : ℤ))) =
      List.replicate 89 ⟨1, 10, 5, 9, 100000⟩ := by
    rw [hbars, List.filter_append, List.filter_replicate]
    norm_num [List.filter]
  apply (identifyRangeBreakout_correct bars ⟨2, 12, 8, 12, 400000⟩ 2
    (by omega) hlast hdate).mpr
  rw [hwin, hprev]
  refine ⟨by simp, ?_, ?_, by norm_num, by norm_num⟩
  · intro b hb
    rw [(List.mem_replicate.mp hb).2]
    norm_num
  · rw [hbars, List.map_append, List.map_replicate]
    norm_num [meanQ, List.sum_append, List.sum_replicate, nsmul_eq_mul]

end StockAnalysis

namespace StockAnalysis

/-! ### Claim C2: MACD-RCI -/

/-- `rciCrossUp` finds exactly the adjacent upward crossings of −80. -/
theorem rciCrossUp_iff (l : List RciRow) :
    rciCrossUp l = true ↔
      ∃ j, j + 1 < l.length ∧ (l.getD j default).rciLong ≤ -80 ∧
        (l.getD (j + 1) default).rciLong > -80 := by
  induction l with
  | nil => simp [rciCrossUp]
  | cons a t ih =>
    cases t with
    | nil => simp [rciCrossUp]
    | cons b rest =>
      constructor
      · intro h
        unfold rciCrossUp at h
        simp only [Bool.or_eq_true, Bool.and_eq_true, decide_eq_true_eq] at h
        rcases h with ⟨h1, h2⟩ | h
        · exact ⟨0, by simp [List.length_cons], by simpa using h1,
            by simpa using h2⟩
        · obtain ⟨j, hj, h1, h2⟩ := ih.mp h
          refine ⟨j + 1, ?_, by simpa using h1, by simpa using h2⟩
          simp only [List.length_cons] at hj ⊢
          omega
      · rintro ⟨j, hj, h1, h2⟩
        unfold rciCrossUp
        simp only [Bool.or_eq_true, Bool.and_eq_true, decide_eq_true_eq]
        cases j with
        | zero => exact Or.inl ⟨by simpa using h1, by simpa using h2⟩
        | succ k =>
          refine Or.inr (ih.mpr ⟨k, ?_, by simpa using h1, by simpa using h2⟩)
          simp only [List.length_cons] at hj ⊢
          omega

/-- `rciCrossDown` finds exactly the adjacent downward crossings of +80. -/
theorem rciCrossDown_iff (l : List RciRow) :
    rciCrossDown l = true ↔
      ∃ j, j + 1 < l.length ∧ (l.getD j default).rciLong ≥ 80 ∧
        (l.getD (j + 1) default).rciLong < 80 := by
  induction l with
  | nil => simp [rciCrossDown]
  | cons a t ih =>
    cases t with
    | nil => simp [rciCrossDown]
    | cons b rest =>
      constructor
      · intro h
        unfold rciCrossDown at h
        simp only [Bool.or_eq_true, Bool.and_eq_true, decide_eq_true_eq] at h
        rcases h with ⟨h1, h2⟩ | h
        · exact ⟨0, by simp [List.length_cons], by simpa using h1,
            by simpa using h2⟩
        · obtain ⟨j, hj, h1, h2⟩ := ih.mp h
          refine ⟨j + 1, ?_, by simpa using h1, by simpa using h2⟩
          simp only [List.length_cons] at hj ⊢
          omega
      · rintro ⟨j, hj, h1, h2⟩
        unfold rciCrossDown
        simp only [Bool.or_eq_true, Bool.and_eq_true, decide_eq_true_eq]
        cases j with
        | zero => exact Or.inl ⟨by simpa using h1, by simpa using h2⟩
        | succ k =>
          refine Or.inr (ih.mpr ⟨k, ?_, by simpa using h1, by simpa using h2⟩)
          simp only [List.length_cons] at hj ⊢
          omega

/-- Reading a cell of the trailing 5-bar window is reading the original
series shifted by `i - 4`. -/
theorem window_getD (rows : List RciRow) (i j : ℕ) (hj : j < 5) :
    ((rows.drop (i - 4)).take 5).getD j default =
      rows.getD (i - 4 + j) default := by
  simp only [List.getD_eq_getElem?_getD]
  rw [List.getElem?_take, if_pos hj, List.getElem?_drop]

/-- **C2.** For every series of rows with the MACD and RCI columns: rows of
a series shorter than 5 bars and rows of index below 4 are classified `''`;
a row `i ≥ 4` is `'Buy'` exactly when some bar of the trailing 5-bar window
ending at `i` has long RCI `≤ -80` with the immediately following bar of the
window above `-80`, while at bar `i` `MACD > MACD_Signal` and short RCI
`≥ 50`; and `'Sell'` exactly under the mirrored conditions (a downward cross
of `+80` in the window, `MACD < MACD_Signal`, short RCI `≤ -50`). -/
theorem macdRciSignal_correct (rows : List RciRow) (i : ℕ) :
    (rows.length < 5 → macdRciSignalAt rows i = "") ∧
    (i < 4 → macdRciSignalAt rows i = "") ∧
    (4 ≤ i → i < rows.length →
      ((macdRciSignalAt rows i = "Buy" ↔
        (∃ j < 4, (rows.getD (i - 4 + j) default).rciLong ≤ -80 ∧
          (rows.getD (i - 4 + j + 1) default).rciLong > -80) ∧
        (rows.getD i default).macd > (rows.getD i default).macdSignal ∧
        (rows.getD i default).rciShort ≥ 50) ∧
       (macdRciSignalAt rows i = "Sell" ↔
        (∃ j < 4, (rows.getD (i - 4 + j) default).rciLong ≥ 80 ∧
          (rows.getD (i - 4 + j + 1) default).rciLong < 80) ∧
        (rows.getD i default).macd < (rows.getD i default).macdSignal ∧
        (rows.getD i default).rciShort ≤ -50))) := by
  refine ⟨?_, ?_, ?_⟩
  · intro h
    unfold macdRciSignalAt
    rw [if_pos (Or.inl h)]
  · intro h
    unfold macdRciSignalAt
    rw [if_pos (Or.inr (Or.inl h))]
  · intro h4 hi
    have hguard : ¬ (rows.length < 5 ∨ i < 4 ∨ rows.length ≤ i) := by omega
    have hwin5 : ((rows.drop (i - 4)).take 5).length = 5 := by
      rw [List.length_take, List.length_drop]
      omega
    have hup : rciCrossUp ((rows.drop (i - 4)).take 5) = true ↔
        ∃ j < 4, (rows.getD (i - 4 + j) default).rciLong ≤ -80 ∧
          (rows.getD (i - 4 + j + 1) default).rciLong > -80 := by
      rw [rciCrossUp_iff]
      constructor
      · rintro ⟨j, hj, h1, h2⟩
        rw [hwin5] at hj
        have hj4 : j < 4 := by omega
        refine ⟨j, hj4, ?_, ?_⟩
        · rw [window_getD rows i j (by omega)] at h1
          exact h1
        · rw [window_getD rows i (j + 1) (by omega)] at h2
          exact h2
      · rintro ⟨j, hj4, h1, h2⟩
        refine ⟨j, by rw [hwin5]; omega, ?_, ?_⟩
        · rw [window_getD rows i j (by omega)]
          exact h1
        · rw [window_getD rows i (j + 1) (by omega)]
          exact h2
    have hdown : rciCrossDown ((rows.drop (i - 4)).take 5) = true ↔
        ∃ j < 4, (rows.getD (i - 4 + j) default).rciLong ≥ 80 ∧
          (rows.getD (i - 4 + j + 1) default).rciLong < 80 := by
      rw [rciCrossDown_iff]
      constructor
      · rintro ⟨j, hj, h1, h2⟩
        rw [hwin5] at hj
        have hj4 : j < 4 := by omega
        refine ⟨j, hj4, ?_, ?_⟩
        · rw [window_getD rows i j (by omega)] at h1
          exact h1
        · rw [window_getD rows i (j + 1) (by omega)] at h2
          exact h2
      · rintro ⟨j, hj4, h1, h2⟩
        refine ⟨j, by rw [hwin5]; omega, ?_, ?_⟩
        · rw [window_getD rows i j (by omega)]
          exact h1
        · rw [window_getD rows i (j + 1) (by omega)]
          exact h2
    unfold macdRciSignalAt
    rw [if_neg hguard]
    by_cases hb : rciCrossUp ((rows.drop (i - 4)).take 5) = true ∧
        (rows.getD i default).macd > (rows.getD i default).macdSignal ∧
        (rows.getD i default).rciShort ≥ 50
    · rw [if_pos hb]
      constructor
      · exact ⟨fun _ => ⟨hup.mp hb.1, hb.2⟩, fun _ => rfl⟩
      · constructor
        · intro h; exact absurd h (by decide)
        · rintro ⟨-, hlt, -⟩
          exact absurd hb.2.1 (not_lt.mpr hlt.le)
    · rw [if_neg hb]
      by_cases hs : rciCrossDown ((rows.drop (i - 4)).take 5) = true ∧
          (rows.getD i default).macd < (rows.getD i default).macdSignal ∧
          (rows.getD i default).rciShort ≤ -50
      · rw [if_pos hs]
        constructor
        · constructor
          · intro h; exact absurd h (by decide)
          · rintro ⟨hcross, hgt, hge⟩
            exact absurd hs.2.1 (not_lt.mpr hgt.le)
        · exact ⟨fun _ => ⟨hdown.mp hs.1, hs.2⟩, fun _ => rfl⟩
      · rw [if_neg hs]
        constructor
        · constructor
          · intro h; exact absurd h (by decide)
          · rintro ⟨hcross, hgt, hge⟩
            exact absurd ⟨hup.mpr hcross, hgt, hge⟩ hb
        · constructor
          · intro h; exact absurd h (by decide)
          · rintro ⟨hcross, hlt, hle⟩
            exact absurd ⟨hdown.mpr hcross, hlt, hle⟩ hs

/-- Witness for C2: `macdRciSignal_correct` applied to a concrete five-bar
series whose last bar fires the buy rule. -/
theorem macdRciSignal_correct_witness :
    macdRciSignalAt
      [⟨0, 0, 0, -90⟩, ⟨0, 0, 0, -70⟩, ⟨0, 0, 0, -60⟩, ⟨0, 0, 0, -50⟩,
       ⟨1, 0, 60, -40⟩] 4 = "Buy" := by
  refine ((macdRciSignal_correct
      [⟨0, 0, 0, -90⟩, ⟨0, 0, 0, -70⟩, ⟨0, 0, 0, -60⟩, ⟨0, 0, 0, -50⟩,
       ⟨1, 0, 60, -40⟩] 4).2.2 (by norm_num) (by norm_num)).1.mpr ?_
  refine ⟨⟨0, by norm_num, by norm_num [List.getD], by norm_num [List.getD]⟩,
    by norm_num [List.getD], by norm_num [List.getD]⟩

/-! ### Claim C3: BB-MACD -/

/-- **C3 counterexample.** A three-row series whose row 0 has a NaN close
while the six values the code checks (close, middle band, MACD, MACD signal
at row 2; MACD, MACD signal at row 0) are all present and fire the buy
conditions: the claim's NaN clause covers the close and middle band two
bars back, but `calculate_trading_signals_BB_MACD` never consults those
cells, so row 2 is classified `'Buy'`, not `''`. -/
theorem bbMacd_claim_counterexample :
    (([⟨none, some 0, some 0, some 1⟩, ⟨none, none, none, none⟩,
       ⟨some 2, some 1, some 2, some 1⟩] : List BbRow).getD 0
        default).close = none ∧
    bbMacdSignalAt
      [⟨none, some 0, some 0, some 1⟩, ⟨none, none, none, none⟩,
       ⟨some 2, some 1, some 2, some 1⟩] 2 = "Buy" := by
  exact ⟨rfl, by rfl⟩

/-- **C3 (amended).** Rows of a series shorter than 3 bars and rows 0 and 1
are classified `''`; a row `i ≥ 2` with any of the *six checked values*
(Close, BB_Middle, MACD, MACD_Signal at `i`; MACD, MACD_Signal at `i−2`)
NaN is classified `''` (Close and BB_Middle at `i−2` are never consulted);
otherwise the row is `'Buy'` exactly when `Close > BB_Middle` and
`MACD > MACD_Signal` at `i` and `MACD < MACD_Signal` at `i−2`, `'Sell'`
exactly under the mirrored conditions, and `''` when neither holds. -/
theorem bbMacdSignal_correct (rows : List BbRow) (i : ℕ) :
    (rows.length < 3 → bbMacdSignalAt rows i = "") ∧
    (i < 2 → bbMacdSignalAt rows i = "") ∧
    (2 ≤ i → i < rows.length →
      (((rows.getD i default).close = none ∨
        (rows.getD i default).bbMiddle = none ∨
        (rows.getD i default).macd = none ∨
        (rows.getD i default).macdSignal = none ∨
        (rows.getD (i - 2) default).macd = none ∨
        (rows.getD (i - 2) default).macdSignal = none) →
        bbMacdSignalAt rows i = "") ∧
      (∀ c m md ms md2 ms2 : ℚ,
        (rows.getD i default).close = some c →
        (rows.getD i default).bbMiddle = some m →
        (rows.getD i default).macd = some md →
        (rows.getD i default).macdSignal = some ms →
        (rows.getD (i - 2) default).macd = some md2 →
        (rows.getD (i - 2) default).macdSignal = some ms2 →
        ((bbMacdSignalAt rows i = "Buy" ↔ c > m ∧ md > ms ∧ md2 < ms2) ∧
         (bbMacdSignalAt rows i = "Sell" ↔ c < m ∧ md < ms ∧ md2 > ms2) ∧
         (¬ (c > m ∧ md > ms ∧ md2 < ms2) →
          ¬ (c < m ∧ md < ms ∧ md2 > ms2) →
          bbMacdSignalAt rows i = "")))) := by
  refine ⟨?_, ?_, ?_⟩
  · intro h
    unfold bbMacdSignalAt
    rw [if_pos (Or.inl h)]
  · intro h
    unfold bbMacdSignalAt
    rw [if_pos (Or.inr (Or.inl h))]
  · intro h2 hi
    have hguard : ¬ (rows.length < 3 ∨ i < 2 ∨ rows.length ≤ i) := by omega
    constructor
    · intro hnan
      unfold bbMacdSignalAt
      rw [if_neg hguard, if_pos hnan]
    · intro c m md ms md2 ms2 hc hm hmd hms hmd2 hms2
      have hnan : ¬ ((rows.getD i default).close = none ∨
          (rows.getD i default).bbMiddle = none ∨
          (rows.getD i default).macd = none ∨
          (rows.getD i default).macdSignal = none ∨
          (rows.getD (i - 2) default).macd = none ∨
          (rows.getD (i - 2) default).macdSignal = none) := by
        rw [hc, hm, hmd, hms, hmd2, hms2]
        simp
      unfold bbMacdSignalAt
      rw [if_neg hguard, if_neg hnan, hc, hm, hmd, hms, hmd2, hms2]
      simp only [Option.getD_some]
      by_cases hb : c > m ∧ md > ms ∧ md2 < ms2
      · rw [if_pos hb]
        have hs : ¬ (c < m ∧ md < ms ∧ md2 > ms2) := by
          rintro ⟨hlt, -, -⟩
          exact absurd hb.1 (not_lt.mpr hlt.le)
        refine ⟨⟨fun _ => hb, fun _ => rfl⟩, ?_, ?_⟩
        · constructor
          · intro h; exact absurd h (by decide)
          · intro h; exact absurd h hs
        · intro h1 _; exact absurd hb h1
      · rw [if_neg hb]
        by_cases hs : c < m ∧ md < ms ∧ md2 > ms2
        · rw [if_pos hs]
          refine ⟨?_, ⟨fun _ => hs, fun _ => rfl⟩, ?_⟩
          · constructor
            · intro h; exact absurd h (by decide)
            · intro h; exact absurd h hb
          · intro _ h2'; exact absurd hs h2'
        · rw [if_neg hs]
          refine ⟨?_, ?_, fun _ _ => rfl⟩
          · constructor
            · intro h; exact absurd h (by decide)
            · intro h; exact absurd h hb
          · constructor
            · intro h; exact absurd h (by decide)
            · intro h; exact absurd h hs

/-- Witness for C3: `bbMacdSignal_correct` applied to a concrete three-row
series whose last row fires the buy rule. -/
theorem bbMacdSignal_correct_witness :
    bbMacdSignalAt
      [⟨some 1, some 2, some 0, some 1⟩, ⟨some 1, some 1, some 0, some 0⟩,
       ⟨some 3, some 2, some 2, some 1⟩] 2 = "Buy" := by
  exact (((bbMacdSignal_correct
      [⟨some 1, some 2, some 0, some 1⟩, ⟨some 1, some 1, some 0, some 0⟩,
       ⟨some 3, some 2, some 2, some 1⟩] 2).2.2 (by norm_num)
      (by norm_num)).2 3 2 2 1 0 1 rfl rfl rfl rfl rfl rfl).1.mpr
    (by norm_num)

end StockAnalysis

namespace StockAnalysis

/-! ### Claim C8: Ichimoku Senkou spans carry no look-ahead -/

/-- Two equally long series that agree (as `getD` reads) up to index `i`
have equal `getElem?` reads up to `i`. -/
theorem getElem?_eq_of_agree (l1 l2 : List Hlc)
    (hlen : l1.length = l2.length) (i : ℕ)
    (hag : ∀ j, j ≤ i → l1.getD j default = l2.getD j default) :
    ∀ k, k ≤ i → l1[k]? = l2[k]? := by
  intro k hk
  by_cases hml : k < l1.length
  · have hml2 : k < l2.length := hlen ▸ hml
    rw [List.getElem?_eq_getElem hml, List.getElem?_eq_getElem hml2]
    have h := hag k hk
    rw [List.getD_eq_getElem?_getD, List.getD_eq_getElem?_getD,
      List.getElem?_eq_getElem hml, List.getElem?_eq_getElem hml2] at h
    simpa using h
  · have hml2 : ¬ k < l2.length := by rw [← hlen]; exact hml
    rw [List.getElem?_eq_none (by omega), List.getElem?_eq_none (by omega)]

/-- Prefixes (after projecting a field) of two series agreeing up to `i`
are equal, for any prefix length at most `i + 1`. -/
theorem take_map_agree (f : Hlc → ℚ) (l1 l2 : List Hlc)
    (hlen : l1.length = l2.length) (i : ℕ)
    (hag : ∀ j, j ≤ i → l1.getD j default = l2.getD j default)
    (k : ℕ) (hk : k ≤ i + 1) :
    (l1.map f).take k = (l2.map f).take k := by
  apply List.ext_getElem?
  intro m
  rw [List.getElem?_take, List.getElem?_take]
  by_cases hm : m < k
  · rw [if_pos hm, if_pos hm, List.getElem?_map, List.getElem?_map,
      getElem?_eq_of_agree l1 l2 hlen i hag m (by omega)]
  · rw [if_neg hm, if_neg hm]

/-- The Tenkan (and Kijun) line at any row `i' ≤ i` is unchanged by
perturbations strictly after index `i`. -/
theorem tenkanAt_agree (l1 l2 : List Hlc) (p : ℕ)
    (hlen : l1.length = l2.length) (i i' : ℕ)
    (hag : ∀ j, j ≤ i → l1.getD j default = l2.getD j default)
    (hi' : i' ≤ i) :
    tenkanAt l1 p i' = tenkanAt l2 p i' := by
  unfold tenkanAt winSlice
  rw [hlen,
    take_map_agree Hlc.high l1 l2 hlen i hag (i' + 1) (by omega),
    take_map_agree Hlc.low l1 l2 hlen i hag (i' + 1) (by omega)]

/-- **C8.** The stored Senkou Span A and B values at index
`i + displacement` are functions only of the bars at indices `≤ i`: two
equally long series agreeing up to `i` store the same values there (so
perturbing any bar after `i`, in particular at `i + displacement + 1`,
changes nothing), and computed values whose target index falls at or past
the end of the series are simply not stored. -/
theorem senkou_no_lookahead (bars1 bars2 : List Hlc) (tp kp sp disp i : ℕ)
    (hlen : bars1.length = bars2.length)
    (hag : ∀ j, j ≤ i → bars1.getD j default = bars2.getD j default) :
    senkouAAt bars1 tp kp disp (i + disp) =
      senkouAAt bars2 tp kp disp (i + disp) ∧
    senkouBAt bars1 sp disp (i + disp) =
      senkouBAt bars2 sp disp (i + disp) ∧
    (∀ bars : List Hlc, ∀ j, bars.length ≤ j →
      senkouAAt bars tp kp disp j = none ∧ senkouBAt bars sp disp j = none) := by
  refine ⟨?_, ?_, ?_⟩
  · unfold senkouAAt kijunAt
    rw [hlen, Nat.add_sub_cancel,
      tenkanAt_agree bars1 bars2 tp hlen i i hag le_rfl,
      tenkanAt_agree bars1 bars2 kp hlen i i hag le_rfl]
  · unfold senkouBAt winSlice
    rw [hlen, Nat.add_sub_cancel,
      take_map_agree Hlc.high bars1 bars2 hlen i hag (i + 1) (by omega),
      take_map_agree Hlc.low bars1 bars2 hlen i hag (i + 1) (by omega)]
  · intro bars j hj
    constructor
    · unfold senkouAAt
      rw [if_neg]
      rintro ⟨-, -, hlt⟩
      omega
    · unfold senkouBAt
      rw [if_neg]
      rintro ⟨-, -, hlt⟩
      omega

/-- Witness for C8: `senkou_no_lookahead` applied to two concrete 3-bar
series differing only in their last bar, at `i = 1`, `displacement = 1`. -/
theorem senkou_no_lookahead_witness :
    senkouAAt [⟨2, 1, 1⟩, ⟨3, 1, 2⟩, ⟨9, 9, 9⟩] 1 1 1 2 =
      senkouAAt [⟨2, 1, 1⟩, ⟨3, 1, 2⟩, ⟨4, 2, 3⟩] 1 1 1 2 := by
  exact (senkou_no_lookahead [⟨2, 1, 1⟩, ⟨3, 1, 2⟩, ⟨9, 9, 9⟩]
    [⟨2, 1, 1⟩, ⟨3, 1, 2⟩, ⟨4, 2, 3⟩] 1 1 1 1 1 rfl
    (by
      intro j hj
      interval_cases j <;> rfl)).1

end StockAnalysis

namespace StockAnalysis

/-! ### Claim C6: insufficient history yields NaN, never a default -/

/-- The seeded EMA is NaN on every row before the seed row `p - 1`. -/
theorem emaAt_none_of_lt (xs : List ℚ) (p i : ℕ) (h : i + 1 < p) :
    emaAt xs p i = none := by
  cases i with
  | zero =>
    unfold emaAt
    rw [if_neg]
    rintro ⟨h1, -⟩
    omega
  | succ n =>
    unfold emaAt
    by_cases hl : xs.length ≤ n + 1
    · rw [if_pos hl]
    · rw [if_neg hl, if_pos (by omega)]

/-- The seeded EMA is NaN past the end of its input series. -/
theorem emaAt_none_of_len (xs : List ℚ) (p i : ℕ) (h : xs.length ≤ i) :
    emaAt xs p i = none := by
  cases i with
  | zero =>
    unfold emaAt
    rw [if_neg]
    rintro ⟨-, h2⟩
    omega
  | succ n =>
    unfold emaAt
    rw [if_pos (by omega)]

/-- The MACD line is NaN before the slow EMA's seed row. -/
theorem macdAt_none_of_lt (closes : List ℚ) (fast slow i : ℕ)
    (h : i + 1 < slow) : macdAt closes fast slow i = none := by
  unfold macdAt
  rw [emaAt_none_of_lt closes slow i h]
  cases hf : emaAt closes fast i <;> rfl

/-- A series shorter than the slow period has no defined MACD value at
all. -/
theorem macdSeries_eq_nil (closes : List ℚ) (fast slow : ℕ)
    (h : closes.length < slow) : macdSeries closes fast slow = [] := by
  unfold macdSeries
  rw [List.filterMap_eq_nil_iff]
  intro i hi
  rw [List.mem_range] at hi
  exact macdAt_none_of_lt closes fast slow i (by omega)

/-- **C6.** Every indicator row computed from fewer trailing bars than the
indicator's minimum window is NaN, never a default such as 0, and for a
series shorter than the window the indicator is NaN on every row: simple
moving average (window `w`), RSI (window `p`), MACD line (slow window) and
MACD signal (slow + signal window), RCI (window `p`), Tenkan/Kijun
(window `p`), Senkou Span A (Tenkan window + displacement), Senkou Span B
(its window + displacement), and the Chikou span of a series no longer
than the displacement.  (`MA`, `RSI`, `MACD` are the spec-modelled TA-Lib
indicators; `RCI` and the Ichimoku lines are embedded from the source.) -/
theorem indicator_nan_before_window :
    (∀ closes : List ℚ, ∀ w i, i + 1 < w → smaAt closes w i = none) ∧
    (∀ closes : List ℚ, ∀ w i, closes.length < w → smaAt closes w i = none) ∧
    (∀ closes : List ℚ, ∀ p i, i < p → rsiAt closes p i = none) ∧
    (∀ closes : List ℚ, ∀ p i, closes.length ≤ p → rsiAt closes p i = none) ∧
    (∀ closes : List ℚ, ∀ fast slow i, i + 1 < slow →
      macdAt closes fast slow i = none) ∧
    (∀ closes : List ℚ, ∀ fast slow sp i, i + 1 < slow + sp - 1 →
      macdSignalAt closes fast slow sp i = none) ∧
    (∀ closes : List ℚ, ∀ fast slow sp i, closes.length < slow →
      macdSignalAt closes fast slow sp i = none) ∧
    (∀ closes : List ℚ, ∀ p i, i + 1 < p → rciAt closes p i = none) ∧
    (∀ closes : List ℚ, ∀ p i, closes.length < p → rciAt closes p i = none) ∧
    (∀ bars : List Hlc, ∀ p i, i + 1 < p → tenkanAt bars p i = none) ∧
    (∀ bars : List Hlc, ∀ p i, bars.length < p → tenkanAt bars p i = none) ∧
    (∀ bars : List Hlc, ∀ p i, i + 1 < p → kijunAt bars p i = none) ∧
    (∀ bars : List Hlc, ∀ tp kp disp j, j + 1 < tp + disp →
      senkouAAt bars tp kp disp j = none) ∧
    (∀ bars : List Hlc, ∀ tp kp disp j, bars.length < tp →
      senkouAAt bars tp kp disp j = none) ∧
    (∀ bars : List Hlc, ∀ sp disp j, j + 1 < sp + disp →
      senkouBAt bars sp disp j = none) ∧
    (∀ bars : List Hlc, ∀ sp disp j, bars.length < sp →
      senkouBAt bars sp disp j = none) ∧
    (∀ bars : List Hlc, ∀ disp j, bars.length ≤ disp →
      chikouAt bars disp j = none) := by
  refine ⟨?_, ?_, ?_, ?_, ?_, ?_, ?_, ?_, ?_, ?_, ?_, ?_, ?_, ?_, ?_, ?_, ?_⟩
  · intro closes w i h
    unfold smaAt
    rw [if_neg]
    rintro ⟨h1, -⟩
    omega
  · intro closes w i h
    unfold smaAt
    rw [if_neg]
    rintro ⟨h1, h2⟩
    omega
  · intro closes p i h
    unfold rsiAt
    rw [if_neg]
    rintro ⟨-, h1, -⟩
    omega
  · intro closes p i h
    unfold rsiAt
    rw [if_neg]
    rintro ⟨-, h1, h2⟩
    omega
  · exact macdAt_none_of_lt
  · intro closes fast slow sp i h
    unfold macdSignalAt
    by_cases hg : slow ≤ i + 1
    · rw [if_pos hg]
      exact emaAt_none_of_lt _ sp _ (by omega)
    · rw [if_neg hg]
  · intro closes fast slow sp i h
    unfold macdSignalAt
    by_cases hg : slow ≤ i + 1
    · rw [if_pos hg, macdSeries_eq_nil closes fast slow h]
      exact emaAt_none_of_len [] sp _ (by simp)
    · rw [if_neg hg]
  · intro closes p i h
    unfold rciAt
    rw [if_neg]
    rintro ⟨h1, -⟩
    omega
  · intro closes p i h
    unfold rciAt
    rw [if_neg]
    rintro ⟨h1, h2⟩
    omega
  · intro bars p i h
    unfold tenkanAt
    rw [if_neg]
    rintro ⟨h1, -⟩
    omega
  · intro bars p i h
    unfold tenkanAt
    rw [if_neg]
    rintro ⟨h1, h2⟩
    omega
  · intro bars p i h
    unfold kijunAt tenkanAt
    rw [if_neg]
    rintro ⟨h1, -⟩
    omega
  · intro bars tp kp disp j h
    unfold senkouAAt
    rw [if_neg]
    rintro ⟨h1, h2, -⟩
    omega
  · intro bars tp kp disp j h
    unfold senkouAAt
    rw [if_neg]
    rintro ⟨h1, h2, h3⟩
    omega
  · intro bars sp disp j h
    unfold senkouBAt
    rw [if_neg]
    rintro ⟨h1, h2, -⟩
    omega
  · intro bars sp disp j h
    unfold senkouBAt
    rw [if_neg]
    rintro ⟨h1, h2, h3⟩
    omega
  · intro bars disp j h
    unfold chikouAt
    rw [if_neg]
    omega

/-- Witness for C6: three conjuncts of `indicator_nan_before_window`
evaluated on concrete short series. -/
theorem indicator_nan_before_window_witness :
    smaAt [1, 2] 5 1 = none ∧ rciAt [1, 2] 9 1 = none ∧
    senkouAAt [⟨1, 1, 1⟩, ⟨2, 1, 2⟩] 9 26 26 1 = none := by
  refine ⟨indicator_nan_before_window.1 [1, 2] 5 1 (by norm_num),
    (indicator_nan_before_window.2.2.2.2.2.2.2.1) [1, 2] 9 1 (by norm_num),
    ?_⟩
  exact (indicator_nan_before_window.2.2.2.2.2.2.2.2.2.2.2.2.1)
    [⟨1, 1, 1⟩, ⟨2, 1, 2⟩] 9 26 26 1 (by norm_num)

/-! ### Claim C10: the published latest-bar extract contains no NaN -/

/-- `fillCell` never returns NaN. -/
theorem fillCell_ne_nan (col : String) (c : Cell) :
    fillCell col c ≠ Cell.nan := by
  cases c with
  | num q => simp [fillCell]
  | str s => simp [fillCell]
  | nan =>
    unfold fillCell
    split_ifs <;> simp

/-- **C10.** The published single-row extract never contains NaN: NaN in
the columns `Signal`, `Ichimoku_SanYaku`, `Ichimoku_Cloud_Status` becomes
the empty string, NaN in every other (numeric) column becomes 0, non-NaN
cells pass through unchanged; in particular an instrument whose history is
shorter than the RCI window — whose history file keeps the NaN (`rciAt`
is `none` on its last row) — publishes the number 0 for that column in its
latest snapshot. -/
theorem latestExtract_fill_correct :
    (∀ row : List (String × Cell), ∀ cv ∈ fillLatestRow row,
      cv.2 ≠ Cell.nan) ∧
    (∀ col : String, col ∉ stringFillColumns →
      fillCell col Cell.nan = Cell.num 0) ∧
    (∀ col : String, col ∈ stringFillColumns →
      fillCell col Cell.nan = Cell.str "") ∧
    (∀ col : String, ∀ c : Cell, c ≠ Cell.nan → fillCell col c = c) ∧
    (∀ closes : List ℚ, ∀ p : ℕ, closes.length < p →
      rciAt closes p (closes.length - 1) = none ∧
      fillCell "RCI9" (toCell (rciAt closes p (closes.length - 1))) =
        Cell.num 0) := by
  refine ⟨?_, ?_, ?_, ?_, ?_⟩
  · intro row cv hcv
    unfold fillLatestRow at hcv
    obtain ⟨ab, -, hab⟩ := List.mem_map.mp hcv
    rw [← hab]
    exact fillCell_ne_nan ab.1 ab.2
  · intro col hcol
    unfold fillCell
    rw [if_neg hcol]
  · intro col hcol
    unfold fillCell
    rw [if_pos hcol]
  · intro col c hc
    cases c with
    | num q => rfl
    | str s => rfl
    | nan => exact absurd rfl hc
  · intro closes p h
    have h1 : rciAt closes p (closes.length - 1) = none := by
      unfold rciAt
      rw [if_neg]
      rintro ⟨h1, h2⟩
      omega
    refine ⟨h1, ?_⟩
    rw [h1]
    rfl

/-- Witness for C10: `latestExtract_fill_correct` applied to a two-bar
history against the 9-bar RCI window. -/
theorem latestExtract_fill_correct_witness :
    fillCell "RCI9" (toCell (rciAt [1, 2] 9 1)) = Cell.num 0 := by
  exact (latestExtract_fill_correct.2.2.2.2 [1, 2] 9 (by norm_num)).2

end StockAnalysis

namespace StockAnalysis

/-! ### Claim C7: RCI is bounded in [−100, 100]

The ranks produced by `argsort(argsort(-w))` form a permutation of
`0 .. p−1` (also under ties), and for any permutation `σ` the rearrangement
inequality bounds `Σ (i − σ i)²` by `p(p²−1)/3`, the value reached by the
reversing permutation; the RCI formula then lands in `[−100, 100]`. -/

theorem rlt_irrefl (l : List ℚ) (i : Fin l.length) : ¬ rlt l i i := by
  unfold rlt
  rintro (h | ⟨-, h⟩)
  · exact lt_irrefl _ h
  · exact lt_irrefl _ h

theorem rlt_trans (l : List ℚ) {a b c : Fin l.length}
    (h1 : rlt l a b) (h2 : rlt l b c) : rlt l a c := by
  unfold rlt at h1 h2 ⊢
  rcases h1 with h1 | ⟨h1, h1'⟩ <;> rcases h2 with h2 | ⟨h2, h2'⟩
  · exact Or.inl (h2.trans h1)
  · exact Or.inl (h2 ▸ h1)
  · exact Or.inl (h1 ▸ h2)
  · exact Or.inr ⟨h1.trans h2, h1'.trans h2'⟩

theorem rlt_total (l : List ℚ) {i j : Fin l.length} (h : i ≠ j) :
    rlt l i j ∨ rlt l j i := by
  unfold rlt
  rcases lt_trichotomy (l.get i) (l.get j) with hlt | heq | hgt
  · exact Or.inr (Or.inl hlt)
  · rcases lt_or_gt_of_ne h with hij | hij
    · exact Or.inl (Or.inr ⟨heq, hij⟩)
    · exact Or.inr (Or.inr ⟨heq.symm, hij⟩)
  · exact Or.inl (Or.inl hgt)

theorem rankOf_lt_length (l : List ℚ) (i : Fin l.length) :
    rankOf l i < l.length := by
  unfold rankOf
  have hsub : (Finset.univ.filter fun j => rlt l j i) ⊆
      Finset.univ.erase i := by
    intro j hj
    rw [Finset.mem_filter] at hj
    rw [Finset.mem_erase]
    refine ⟨?_, Finset.mem_univ j⟩
    rintro rfl
    exact rlt_irrefl l _ hj.2
  have h1 := Finset.card_le_card hsub
  rw [Finset.card_erase_of_mem (Finset.mem_univ i), Finset.card_univ,
    Fintype.card_fin] at h1
  have h2 := i.2
  omega

theorem rankOf_lt_of_rlt (l : List ℚ) {i j : Fin l.length}
    (h : rlt l i j) : rankOf l i < rankOf l j := by
  unfold rankOf
  have hins : insert i (Finset.univ.filter fun k => rlt l k i) ⊆
      Finset.univ.filter fun k => rlt l k j := by
    intro k hk
    rw [Finset.mem_insert] at hk
    rw [Finset.mem_filter]
    refine ⟨Finset.mem_univ k, ?_⟩
    rcases hk with rfl | hk
    · exact h
    · rw [Finset.mem_filter] at hk
      exact rlt_trans l hk.2 h
  have hnm : i ∉ Finset.univ.filter fun k => rlt l k i := by
    rw [Finset.mem_filter]
    rintro ⟨-, hc⟩
    exact rlt_irrefl l i hc
  have hc := Finset.card_le_card hins
  rw [Finset.card_insert_of_not_mem hnm] at hc
  omega

theorem rankOf_injective (l : List ℚ) :
    Function.Injective fun i => rankOf l i := by
  intro i j h
  by_contra hne
  rcases rlt_total l hne with hr | hr
  · exact absurd h (Nat.ne_of_lt (rankOf_lt_of_rlt l hr))
  · exact absurd h.symm (Nat.ne_of_lt (rankOf_lt_of_rlt l hr))

theorem sum_range_cast (p : ℕ) :
    ∑ i ∈ Finset.range p, ((i : ℚ)) = p * (p - 1) / 2 := by
  induction p with
  | zero => simp
  | succ n ih =>
    rw [Finset.sum_range_succ, ih]
    push_cast
    ring

theorem sum_range_cast_sq (p : ℕ) :
    ∑ i ∈ Finset.range p, ((i : ℚ)) ^ 2 =
      p * (p - 1) * (2 * p - 1) / 6 := by
  induction p with
  | zero => simp
  | succ n ih =>
    rw [Finset.sum_range_succ, ih]
    push_cast
    ring

theorem sum_fin_cast (p : ℕ) :
    ∑ i : Fin p, ((i : ℚ)) = p * (p - 1) / 2 := by
  rw [Fin.sum_univ_eq_sum_range (fun i => ((i : ℚ))) p]
  exact sum_range_cast p

theorem sum_fin_cast_sq (p : ℕ) :
    ∑ i : Fin p, ((i : ℚ)) ^ 2 = p * (p - 1) * (2 * p - 1) / 6 := by
  rw [Fin.sum_univ_eq_sum_range (fun i => ((i : ℚ)) ^ 2) p]
  exact sum_range_cast_sq p

theorem sum_rev_prod (p : ℕ) :
    ∑ i : Fin p, ((i : ℚ)) * ((Fin.rev i : ℚ)) =
      ((p : ℚ) - 1) * (∑ i : Fin p, ((i : ℚ))) -
        ∑ i : Fin p, ((i : ℚ)) ^ 2 := by
  rw [Finset.mul_sum, ← Finset.sum_sub_distrib]
  apply Finset.sum_congr rfl
  intro i _
  have h2 : i.val + 1 ≤ p := i.2
  have hv : ((Fin.rev i : ℕ) : ℚ) = (p : ℚ) - 1 - ((i : ℕ) : ℚ) := by
    rw [Fin.val_rev, Nat.cast_sub h2]
    push_cast
    ring
  rw [hv]
  ring

theorem perm_prod_lower (p : ℕ) (e : Equiv.Perm (Fin p)) :
    ∑ i : Fin p, ((i : ℚ)) * ((Fin.rev i : ℚ)) ≤
      ∑ i : Fin p, ((i : ℚ)) * ((e i : ℚ)) := by
  have hanti : Antivary (fun i : Fin p => ((i : ℚ)))
      (fun j : Fin p => ((Fin.rev j : ℚ))) := by
    intro i j hij
    dsimp only at hij ⊢
    have hv : (Fin.rev i).val < (Fin.rev j).val := by exact_mod_cast hij
    rw [Fin.val_rev, Fin.val_rev] at hv
    have hj2 := j.2
    have hle : j.val ≤ i.val := by omega
    exact_mod_cast hle
  have h := hanti.sum_mul_le_sum_mul_comp_perm (σ := e.trans Fin.revPerm)
  simpa [Equiv.trans_apply, Fin.revPerm_apply, Fin.rev_rev] using h

theorem perm_sq_bound (p : ℕ) (e : Equiv.Perm (Fin p)) :
    ∑ i : Fin p, (((i : ℚ)) - ((e i : ℚ))) ^ 2 ≤
      (p : ℚ) * ((p : ℚ) ^ 2 - 1) / 3 := by
  have hcomp : ∑ i : Fin p, ((e i : ℚ)) ^ 2 =
      ∑ i : Fin p, ((i : ℚ)) ^ 2 :=
    Equiv.sum_comp e fun j => ((j : ℚ)) ^ 2
  have hexp : ∑ i : Fin p, (((i : ℚ)) - ((e i : ℚ))) ^ 2 =
      2 * (∑ i : Fin p, ((i : ℚ)) ^ 2) -
        2 * ∑ i : Fin p, ((i : ℚ)) * ((e i : ℚ)) := by
    have h1 : ∀ i : Fin p, (((i : ℚ)) - ((e i : ℚ))) ^ 2 =
        ((i : ℚ)) ^ 2 - 2 * (((i : ℚ)) * ((e i : ℚ))) + ((e i : ℚ)) ^ 2 := by
      intro i
      ring
    rw [Finset.sum_congr rfl fun i _ => h1 i]
    rw [Finset.sum_add_distrib, Finset.sum_sub_distrib, hcomp,
      ← Finset.mul_sum]
    ring
  rw [hexp]
  have hlow := perm_prod_lower p e
  have hrev : ∑ i : Fin p, ((i : ℚ)) * ((Fin.rev i : ℚ)) =
      ((p : ℚ) - 1) * ((p : ℚ) * ((p : ℚ) - 1) / 2) -
        (p : ℚ) * ((p : ℚ) - 1) * (2 * (p : ℚ) - 1) / 6 := by
    rw [sum_rev_prod, sum_fin_cast, sum_fin_cast_sq]
  have hsq := sum_fin_cast_sq p
  rw [hsq]
  rw [hrev] at hlow
  nlinarith [hlow]

/-- **C7.** For every window of `p ≥ 2` closes, the RCI value obtained by
ranking time order against price order (ties broken by position) and
applying `RCI = (1 − 6·d²/(p·(p²−1))) · 100` lies in `[−100, 100]`, tied
prices included. -/
theorem computeRci_bounded (l : List ℚ) (hl : 2 ≤ l.length) :
    -100 ≤ computeRci l ∧ computeRci l ≤ 100 := by
  have hbij : Function.Bijective (fun i : Fin l.length =>
      (⟨rankOf l i, rankOf_lt_length l i⟩ : Fin l.length)) := by
    rw [← Finite.injective_iff_bijective]
    intro i j h
    apply rankOf_injective l
    simpa [Fin.mk.injEq] using h
  set e : Equiv.Perm (Fin l.length) :=
    (Equiv.ofBijective _ hbij).trans Fin.revPerm with he
  have hterm : ∀ i : Fin l.length,
      ((((i : ℕ) : ℚ) + 1) - ((l.length : ℚ) - (rankOf l i : ℚ))) ^ 2 =
        (((i : ℚ)) - ((e i : ℚ))) ^ 2 := by
    intro i
    have h1 : (e i).val = l.length - (rankOf l i + 1) := by
      simp only [he, Equiv.trans_apply, Equiv.ofBijective_apply,
        Fin.revPerm_apply]
      exact Fin.val_rev _
    have hrlt := rankOf_lt_length l i
    have hcast : ((e i : ℕ) : ℚ) =
        (l.length : ℚ) - 1 - (rankOf l i : ℚ) := by
      rw [h1, Nat.cast_sub (by omega)]
      push_cast
      ring
    rw [hcast]
    ring
  have hD : (∑ i : Fin l.length,
      ((((i : ℕ) : ℚ) + 1) - ((l.length : ℚ) - (rankOf l i : ℚ))) ^ 2) =
      ∑ i : Fin l.length, (((i : ℚ)) - ((e i : ℚ))) ^ 2 :=
    Finset.sum_congr rfl fun i _ => hterm i
  have hDnn : 0 ≤ ∑ i : Fin l.length,
      ((((i : ℕ) : ℚ) + 1) - ((l.length : ℚ) - (rankOf l i : ℚ))) ^ 2 :=
    Finset.sum_nonneg fun i _ => sq_nonneg _
  have hDle : (∑ i : Fin l.length,
      ((((i : ℕ) : ℚ) + 1) - ((l.length : ℚ) - (rankOf l i : ℚ))) ^ 2) ≤
      (l.length : ℚ) * ((l.length : ℚ) ^ 2 - 1) / 3 := by
    rw [hD]
    exact perm_sq_bound l.length e
  have hp : (2 : ℚ) ≤ (l.length : ℚ) := by exact_mod_cast hl
  have hdenom : 0 < (l.length : ℚ) * ((l.length : ℚ) ^ 2 - 1) := by
    nlinarith
  unfold computeRci
  constructor
  · have h6 : 6 * (∑ i : Fin l.length,
        ((((i : ℕ) : ℚ) + 1) - ((l.length : ℚ) - (rankOf l i : ℚ))) ^ 2) ≤
        2 * ((l.length : ℚ) * ((l.length : ℚ) ^ 2 - 1)) := by
      nlinarith
    have hdiv : 6 * (∑ i : Fin l.length,
        ((((i : ℕ) : ℚ) + 1) - ((l.length : ℚ) - (rankOf l i : ℚ))) ^ 2) /
        ((l.length : ℚ) * ((l.length : ℚ) ^ 2 - 1)) ≤ 2 :=
      (div_le_iff₀ hdenom).mpr (by nlinarith)
    nlinarith
  · have hdivnn : 0 ≤ 6 * (∑ i : Fin l.length,
        ((((i : ℕ) : ℚ) + 1) - ((l.length : ℚ) - (rankOf l i : ℚ))) ^ 2) /
        ((l.length : ℚ) * ((l.length : ℚ) ^ 2 - 1)) :=
      div_nonneg (by nlinarith) hdenom.le
    nlinarith

/-- Witness for C7: `computeRci_bounded` on a concrete tied-price window of
length 2. -/
theorem computeRci_bounded_witness :
    2 ≤ ([1, 1] : List ℚ).length ∧
      (-100 ≤ computeRci [1, 1] ∧ computeRci [1, 1] ≤ 100) :=
  ⟨by norm_num, computeRci_bounded [1, 1] (by norm_num)⟩

end StockAnalysis
